import Mathlib

/-!
# Verification of the reactivity engine and template compiler core

Shallow embedding, in Lean 4, of the reactivity engine (Dep / Observer /
Watcher / scheduler) and of parts of the template compiler (optimizer,
event-handler helper, filter parser, HTML scanner) of the repository, together
with proofs settling the frozen specification claims.

JS values are modelled with identity semantics: `JSValue.prim i` stands for any
JavaScript value compared by `===` through its identity `i` (covers primitives
and object references alike), and `JSValue.nan` stands for `NaN`, the unique
value for which `x === x` is false.
-/

/-- A JavaScript value as seen by `===`: either an ordinary value identified by
`i` (two ordinary values are `===`-equal iff their identities coincide), or
`NaN` (never `===`-equal to anything, itself included). -/
inductive JSValue where
  | prim (i : Nat)
  | nan
deriving DecidableEq, Repr

namespace JSValue

/-- JavaScript strict equality `===` on the modelled values. -/
def jsEq : JSValue → JSValue → Bool
  | prim i, prim j => i == j
  | _, _ => false

@[simp] theorem jsEq_prim (i j : Nat) : jsEq (prim i) (prim j) = (i == j) := rfl
@[simp] theorem jsEq_nan_left (v : JSValue) : jsEq nan v = false := rfl
@[simp] theorem jsEq_nan_right (v : JSValue) : jsEq v nan = false := by cases v <;> rfl

theorem jsEq_self_eq_false_iff (v : JSValue) : jsEq v v = false ↔ v = nan := by
  cases v <;> simp [jsEq]

end JSValue

/-! ## `defineReactive`'s setter (`src/unnamed/part_004`, `reactiveSetter`)

The stored state of one reactive property: the private slot `val` captured by
the accessor closure, and `childOb`, the observer wrapping the current value
(`observe(val)`); the dedicated `dep` is only acted on through `notify`, which
we record as a flag.  We embed the ordinary data-property case that
`defineReactive` installs on plain data, i.e. the property had no pre-defined
getter/setter (`getter = setter = undefined`), so the setter reads
`value = val` and ends in `val = newVal`. -/
structure ReactiveSlot where
  val : JSValue
  childOb : Option Nat
deriving DecidableEq, Repr

/-- Result of one invocation of the reactive setter: the updated slot and
whether `dep.notify()` ran. -/
structure SetterResult where
  slot : ReactiveSlot
  notified : Bool
deriving DecidableEq, Repr

/-- `reactiveSetter` from `defineReactive` (`src/unnamed/part_004` lines
300-326), for a plain slot (no pre-defined accessors).  `observeF` stands for
`observe`, returning the (identity of the) child observer for the new value
when it is observable; `shallow` is `defineReactive`'s fifth argument. -/
def reactiveSetter (observeF : JSValue → Option Nat) (shallow : Bool)
    (s : ReactiveSlot) (newVal : JSValue) : SetterResult :=
  -- const value = val
  let value := s.val
  -- if (newVal === value || (newVal !== newVal && value !== value)) return
  if newVal.jsEq value || (!newVal.jsEq newVal && !value.jsEq value) then
    { slot := s, notified := false }
  else
    -- val = newVal; childOb = !shallow && observe(newVal); dep.notify()
    { slot := { val := newVal, childOb := if shallow then none else observeF newVal },
      notified := true }

/-! ## `observe` (`src/unnamed/part_004` lines 209-239) -/

/-- The aspects of a JavaScript value that `observe` inspects.  `ob` is the
`__ob__` marker (the identity of an existing `Observer`) when the value owns
one that is `instanceof Observer`; `isVue` is the `_isVue` marker of internal
framework instances. -/
structure ObserveCandidate where
  isVNode : Bool
  ob : Option Nat
  isArray : Bool
  isPlainObject : Bool
  extensible : Bool
  isVue : Bool
deriving DecidableEq, Repr

/-- Argument to `observe`: either not an object at all (primitives,
`null`, …), or an object with the inspected aspects. -/
inductive ObserveArg where
  | nonObject
  | obj (c : ObserveCandidate)
deriving DecidableEq, Repr

/-- Result of `observe`: the returned observer (`none` models the `undefined`
return), plus whether a fresh `Observer` was constructed (`new Observer(value)`
ran, instrumenting the value). -/
structure ObserveResult where
  result : Option Nat
  created : Bool
deriving DecidableEq, Repr

/-- `observe` (`src/unnamed/part_004`).  `shouldObserve` is the process-wide
toggle, `isSSR` is `isServerRendering()`, and `freshId` is the identity the
newly constructed `Observer` would get.  (The `asRootData`/`vmCount`
bookkeeping only increments a counter on the returned observer and is not
modelled.) -/
def observe (shouldObserve : Bool) (isSSR : Bool) (freshId : Nat) :
    ObserveArg → ObserveResult
  | .nonObject => { result := none, created := false }
  | .obj c =>
    -- if (!isObject(value) || value instanceof VNode) return
    if c.isVNode then { result := none, created := false }
    -- if (hasOwn(value, '__ob__') && value.__ob__ instanceof Observer) ob = value.__ob__
    else if h : c.ob.isSome then { result := some (c.ob.get h), created := false }
    else if shouldObserve && !isSSR && (c.isArray || c.isPlainObject)
        && c.extensible && !c.isVue then
      -- ob = new Observer(value)
      { result := some freshId, created := true }
    else { result := none, created := false }

/-! ## Claims C5 and C6 -/

/-- C5: writing a value that is `===`-identical to the stored value (or where
both are `NaN`) is a no-op for the reactive setter: the slot (stored value and
child observer) is unchanged and `dep.notify()` does not run, so no subscriber
of the property's dependency node is notified. -/
theorem C5_reactive_setter_identical_write_is_noop
    (observeF : JSValue → Option Nat) (shallow : Bool)
    (s : ReactiveSlot) (newVal : JSValue)
    (h : newVal.jsEq s.val = true ∨ (newVal = .nan ∧ s.val = .nan)) :
    reactiveSetter observeF shallow s newVal = { slot := s, notified := false } := by
  unfold reactiveSetter
  rcases h with h | ⟨h₁, h₂⟩
  · simp [h]
  · subst h₁; simp [h₂]

theorem C5_witness :
    ((JSValue.prim 7).jsEq (ReactiveSlot.mk (.prim 7) (some 3)).val = true ∨
      (JSValue.prim 7 = .nan ∧ (ReactiveSlot.mk (.prim 7) (some 3)).val = .nan)) ∧
    reactiveSetter (fun _ => some 9) false (ReactiveSlot.mk (.prim 7) (some 3)) (.prim 7)
      = { slot := ReactiveSlot.mk (.prim 7) (some 3), notified := false } :=
  ⟨Or.inl (by decide),
   C5_reactive_setter_identical_write_is_noop (fun _ => some 9) false
     (ReactiveSlot.mk (.prim 7) (some 3)) (.prim 7) (Or.inl (by decide))⟩

/-- C6: `observe` is idempotent — on a value already carrying the `__ob__`
marker it returns exactly the existing observer and constructs nothing — and it
never wraps (and returns `undefined` for) an unmarked value that is not a plain
object or array, or is non-extensible, or is internal framework state (a Vue
instance or a VNode), or is not an object at all. -/
theorem C6_observe_idempotent_and_guarded
    (shouldObserve isSSR : Bool) (freshId : Nat) :
    (∀ c : ObserveCandidate, ¬ c.isVNode → ∀ obId, c.ob = some obId →
      observe shouldObserve isSSR freshId (.obj c)
        = { result := some obId, created := false }) ∧
    (∀ c : ObserveCandidate, c.ob = none →
      ((c.isArray = false ∧ c.isPlainObject = false) ∨ c.extensible = false ∨
        c.isVue = true ∨ c.isVNode = true) →
      observe shouldObserve isSSR freshId (.obj c)
        = { result := none, created := false }) ∧
    observe shouldObserve isSSR freshId .nonObject
      = { result := none, created := false } := by
  refine ⟨?_, ?_, rfl⟩
  · intro c hv obId hob
    unfold observe
    simp only [Bool.not_eq_true] at hv
    simp [hv, hob]
  · intro c hob hcond
    unfold observe
    rcases hcond with ⟨h₁, h₂⟩ | h | h | h
    · simp [hob, h₁, h₂]
    · simp [hob, h]
    · simp [hob, h]
    · simp [hob, h]

theorem C6_witness :
    (¬ (ObserveCandidate.mk false (some 4) true false true false).isVNode) ∧
    observe true false 11 (.obj (ObserveCandidate.mk false (some 4) true false true false))
      = { result := some 4, created := false } :=
  ⟨by decide,
   (C6_observe_idempotent_and_guarded true false 11).1
     (ObserveCandidate.mk false (some 4) true false true false) (by decide) 4 rfl⟩

/-! ## Watcher dependency bookkeeping
(`src/src/core/observer/traverse.js`, class `Watcher`;
`src/src/core/observer/dep.js`, class `Dep`)

Dependency nodes are identified by their `id`.  For one fixed watcher we track
its four bookkeeping containers together with, for every dependency node `d`,
the number of occurrences of this watcher in `d`'s subscriber array `subs`
(`Dep.addSub` pushes, `Dep.removeSub` removes one occurrence via `remove`).
Since in the source `newDeps` stores `Dep` objects and `newDepIds` their ids,
and both are only ever pushed to in lockstep, both are lists of ids here. -/
structure WatcherDeps where
  /-- `this.deps`: deps collected by the previous evaluation (ids). -/
  deps : List Nat
  /-- `this.depIds`: the id set of `deps` (a JS `Set`, insertion ordered). -/
  depIds : List Nat
  /-- `this.newDeps`: deps collected so far in the current evaluation. -/
  newDeps : List Nat
  /-- `this.newDepIds`: their id set. -/
  newDepIds : List Nat
  /-- occurrence count of this watcher in each dep's `subs` array. -/
  subs : Nat → Nat

/-- `Watcher.addDep(dep)` — called by `Dep.depend()` whenever this watcher is
`Dep.target` and dependency node `id` is read. -/
def addDep (s : WatcherDeps) (id : Nat) : WatcherDeps :=
  if id ∈ s.newDepIds then s
  else
    let s' := { s with newDepIds := s.newDepIds ++ [id], newDeps := s.newDeps ++ [id] }
    if id ∈ s.depIds then s'
    else { s' with subs := fun d => if d = id then s.subs d + 1 else s.subs d }

/-- The `while (i--)` loop of `Watcher.cleanupDeps`: walk `deps` (from the back)
and `removeSub` this watcher from every dep not re-collected this evaluation. -/
def cleanupRemove (newDepIds : List Nat) : List Nat → (Nat → Nat) → (Nat → Nat)
  | [], subs => subs
  | d :: rest, subs =>
    if d ∈ newDepIds then cleanupRemove newDepIds rest subs
    else fun x =>
      if x = d then cleanupRemove newDepIds rest subs x - 1
      else cleanupRemove newDepIds rest subs x

/-- `Watcher.cleanupDeps()`: unsubscribe from stale deps, then swap
current and pending sets and clear the pending ones. -/
def cleanupDeps (s : WatcherDeps) : WatcherDeps :=
  { deps := s.newDeps
    depIds := s.newDepIds
    newDeps := []
    newDepIds := []
    subs := cleanupRemove s.newDepIds s.deps s.subs }

/-- One evaluation of the watcher during which exactly the dependency nodes in
`reads` trigger `depend` (in that order, duplicates allowed), followed by the
`cleanupDeps` in `Watcher.get`'s `finally`. -/
def evalWatcher (s : WatcherDeps) (reads : List Nat) : WatcherDeps :=
  cleanupDeps (reads.foldl addDep s)

/-- The steady-state invariant between evaluations: the collected dep list has
no duplicates and agrees with its id set, the watcher sits exactly once in the
subscriber list of each collected dep and nowhere else, and the pending
containers are empty. -/
def WatcherWF (s : WatcherDeps) : Prop :=
  s.deps.Nodup ∧ (∀ d, d ∈ s.depIds ↔ d ∈ s.deps) ∧
  (∀ d, s.subs d = if d ∈ s.depIds then 1 else 0) ∧
  s.newDeps = [] ∧ s.newDepIds = []

/-- State of the fold over `reads`: `deps`/`depIds` untouched, the pending
containers hold exactly the distinct ids seen so far, and each seen id has been
subscribed (unless it was already current). -/
theorem foldl_addDep_spec (reads : List Nat) :
    ∀ s : WatcherDeps, s.deps.Nodup → (∀ d, d ∈ s.depIds ↔ d ∈ s.deps) →
      s.newDeps = s.newDepIds → s.newDepIds.Nodup →
      (∀ d, s.subs d = if d ∈ s.depIds ∨ d ∈ s.newDepIds then 1 else 0) →
      let t := reads.foldl addDep s
      t.deps = s.deps ∧ t.depIds = s.depIds ∧
      t.newDeps = t.newDepIds ∧ t.newDepIds.Nodup ∧
      (∀ d, d ∈ t.newDepIds ↔ d ∈ s.newDepIds ∨ d ∈ reads) ∧
      (∀ d, t.subs d = if d ∈ s.depIds ∨ d ∈ t.newDepIds then 1 else 0) := by
  induction reads with
  | nil =>
    intro s _ _ hnn hnd hsubs
    exact ⟨rfl, rfl, hnn, hnd, fun d => by simp, hsubs⟩
  | cons r rest ih =>
    intro s hdep hids hnn hnd hsubs
    by_cases hr : r ∈ s.newDepIds
    · have : addDep s r = s := by unfold addDep; simp [hr]
      simp only [List.foldl_cons, this]
      obtain ⟨h₁, h₂, h₃, h₄, h₅, h₆⟩ := ih s hdep hids hnn hnd hsubs
      refine ⟨h₁, h₂, h₃, h₄, fun d => ?_, h₆⟩
      rw [h₅]
      constructor
      · rintro (h | h)
        · exact Or.inl h
        · exact Or.inr (List.mem_cons_of_mem _ h)
      · rintro (h | h)
        · exact Or.inl h
        · rcases List.mem_cons.mp h with h | h
          · exact Or.inl (h ▸ hr)
          · exact Or.inr h
    · have hndr : (s.newDepIds ++ [r]).Nodup := by
        refine List.Nodup.append hnd (List.nodup_singleton r) ?_
        intro a ha hb
        rw [List.mem_singleton] at hb
        exact hr (hb ▸ ha)
      by_cases hri : r ∈ s.depIds
      · have : addDep s r =
            { s with newDepIds := s.newDepIds ++ [r], newDeps := s.newDeps ++ [r] } := by
          unfold addDep; simp [hr, hri]
        simp only [List.foldl_cons, this]
        obtain ⟨h₁, h₂, h₃, h₄, h₅, h₆⟩ :=
          ih { s with newDepIds := s.newDepIds ++ [r], newDeps := s.newDeps ++ [r] }
            hdep hids (by simp [hnn]) hndr
            (fun d => by
              simp only [List.mem_append, List.mem_singleton]
              rw [hsubs d]
              by_cases hdr : d = r
              · subst hdr; simp [hri]
              · simp [hdr])
        refine ⟨h₁, h₂, h₃, h₄, fun d => ?_, h₆⟩
        rw [h₅]
        simp only [List.mem_append, List.mem_singleton, List.mem_cons]
        tauto
      · have : addDep s r =
            { s with newDepIds := s.newDepIds ++ [r], newDeps := s.newDeps ++ [r],
                     subs := fun d => if d = r then s.subs d + 1 else s.subs d } := by
          unfold addDep; simp [hr, hri]
        simp only [List.foldl_cons, this]
        obtain ⟨h₁, h₂, h₃, h₄, h₅, h₆⟩ :=
          ih { s with newDepIds := s.newDepIds ++ [r], newDeps := s.newDeps ++ [r],
                      subs := fun d => if d = r then s.subs d + 1 else s.subs d }
            hdep hids (by simp [hnn]) hndr
            (fun d => by
              simp only [List.mem_append, List.mem_singleton]
              by_cases hdr : d = r
              · subst hdr
                rw [if_pos rfl, hsubs d]
                simp [hri, hr]
              · rw [if_neg hdr, hsubs d]
                simp [hdr])
        refine ⟨h₁, h₂, h₃, h₄, fun d => ?_, h₆⟩
        rw [h₅]
        simp only [List.mem_append, List.mem_singleton, List.mem_cons]
        tauto

/-- Effect of the removal loop on the occurrence counts, for a duplicate-free
`deps` list. -/
theorem cleanupRemove_spec (newDepIds : List Nat) :
    ∀ (deps : List Nat), deps.Nodup → ∀ (subs : Nat → Nat) (d : Nat),
      cleanupRemove newDepIds deps subs d =
        if d ∈ deps ∧ d ∉ newDepIds then subs d - 1 else subs d := by
  intro deps
  induction deps with
  | nil => intro _ subs d; simp [cleanupRemove]
  | cons a rest ih =>
    intro hnd subs d
    have hrest : rest.Nodup := (List.nodup_cons.mp hnd).2
    have hna : a ∉ rest := (List.nodup_cons.mp hnd).1
    unfold cleanupRemove
    by_cases ha : a ∈ newDepIds
    · rw [if_pos ha, ih hrest subs d]
      by_cases hdn : d ∈ newDepIds
      · simp [hdn]
      · by_cases hda : d = a
        · exact absurd (hda ▸ ha) hdn
        · simp [hdn, hda, List.mem_cons]
    · rw [if_neg ha]
      by_cases hda : d = a
      · subst hda
        rw [if_pos rfl, ih hrest subs d]
        simp [hna, List.mem_cons, ha]
      · rw [if_neg hda, ih hrest subs d]
        simp [List.mem_cons, hda]

/-- C4: after any evaluation during which exactly the dependency nodes in
`reads` triggered `depend`, the watcher is subscribed to exactly that set of
dependency nodes and to no others (stale subscriptions are removed by
`cleanupDeps`), it occurs at most once in any dependency node's subscriber
list, and the steady-state invariant is re-established for the next
evaluation. -/
theorem C4_subscriptions_exactly_reads (s : WatcherDeps) (reads : List Nat)
    (hwf : WatcherWF s) :
    (∀ d, (evalWatcher s reads).subs d = if d ∈ reads then 1 else 0) ∧
    (∀ d, (evalWatcher s reads).subs d ≤ 1) ∧
    WatcherWF (evalWatcher s reads) := by
  obtain ⟨hnd, hids, hsubs, hne, hnie⟩ := hwf
  obtain ⟨h₁, h₂, h₃, h₄, h₅, h₆⟩ :=
    foldl_addDep_spec reads s hnd hids (hne.trans hnie.symm) (hnie ▸ List.nodup_nil)
      (fun d => by rw [hsubs d, hnie]; simp)
  set t := reads.foldl addDep s with ht
  have hmem : ∀ d, d ∈ t.newDepIds ↔ d ∈ reads := by
    intro d; rw [h₅, hnie]; simp
  have hfinal : ∀ d, (evalWatcher s reads).subs d = if d ∈ reads then 1 else 0 := by
    intro d
    show (cleanupDeps t).subs d = _
    unfold cleanupDeps
    simp only
    rw [cleanupRemove_spec t.newDepIds t.deps (h₁ ▸ hnd) t.subs d, h₆ d]
    by_cases hdr : d ∈ reads
    · have hdn : d ∈ t.newDepIds := (hmem d).mpr hdr
      simp [hdn, hdr]
    · have hdn : d ∉ t.newDepIds := fun h => hdr ((hmem d).mp h)
      by_cases hdi : d ∈ s.depIds
      · have : d ∈ t.deps := h₁ ▸ (hids d).mp hdi
        simp [hdn, hdr, hdi, this]
      · have : d ∉ t.deps := h₁ ▸ fun h => hdi ((hids d).mpr h)
        simp [hdn, hdr, hdi, this]
  refine ⟨hfinal, fun d => by rw [hfinal d]; split <;> omega, ?_, ?_, ?_, rfl, rfl⟩
  · show t.newDeps.Nodup
    rw [h₃]; exact h₄
  · intro d
    show d ∈ t.newDepIds ↔ d ∈ t.newDeps
    rw [h₃]
  · intro d
    have hthis := hfinal d
    unfold evalWatcher at hthis
    rw [← ht] at hthis
    show (cleanupDeps t).subs d = if d ∈ t.newDepIds then 1 else 0
    rw [hthis]
    by_cases hdr : d ∈ reads
    · have hdn : d ∈ t.newDepIds := (hmem d).mpr hdr
      simp [hdr, hdn]
    · have hdn : d ∉ t.newDepIds := fun h => hdr ((hmem d).mp h)
      simp [hdr, hdn]

theorem C4_witness :
    WatcherWF (WatcherDeps.mk [2, 5] [2, 5] [] []
      (fun d => if d ∈ ([2, 5] : List Nat) then 1 else 0)) ∧
    (∀ d, (evalWatcher (WatcherDeps.mk [2, 5] [2, 5] [] []
        (fun d => if d ∈ ([2, 5] : List Nat) then 1 else 0)) [5, 9, 5]).subs d
      = if d ∈ ([5, 9, 5] : List Nat) then 1 else 0) := by
  have hwf : WatcherWF (WatcherDeps.mk [2, 5] [2, 5] [] []
      (fun d => if d ∈ ([2, 5] : List Nat) then 1 else 0)) := by
    refine ⟨by decide, fun d => Iff.rfl, fun d => rfl, rfl, rfl⟩
  exact ⟨hwf, (C4_subscriptions_exactly_reads _ [5, 9, 5] hwf).1⟩

/-! ## `Watcher.get` (`src/src/core/observer/traverse.js` lines 188-214) and
the target stack (`src/src/core/observer/dep.js`, `pushTarget`/`popTarget`) -/

/-- The module-level `targetStack`; entries are (possibly null) watchers pushed
by `pushTarget`.  `Dep.target` is always the last pushed entry. -/
def pushTarget (target : Option Nat) (stack : List (Option Nat)) : List (Option Nat) :=
  stack ++ [target]

/-- `popTarget()`: pop, then reset `Dep.target` to the new top (which our
model derives from the stack, see `depTarget`). -/
def popTarget (stack : List (Option Nat)) : List (Option Nat) :=
  stack.dropLast

/-- `Dep.target` as derived from the stack (`targetStack[targetStack.length - 1]`,
`undefined` on an empty stack). -/
def depTarget (stack : List (Option Nat)) : Option Nat :=
  (stack.getLast?).join

/-- Outcome of `Watcher.get`: the value returned to the caller, or the
exception that propagated out.  `ok none` is the user-watcher error path where
the error was routed to `handleError` and `value` stayed `undefined`. -/
structure GetResult (ε α : Type) where
  stack : List (Option Nat)
  wstate : WatcherDeps
  outcome : Except ε (Option α)

/-- `Watcher.get()`.  `wid` is this watcher's id, `reads` the dependency nodes
that triggered `depend` while the getter (and, for deep watchers, the
`traverse` in the `finally` block) ran, and `getterOutcome` is what
`this.getter.call(vm, vm)` did — returned a value or threw.  The `finally`
block of the source (pop the target stack, `cleanupDeps`) is mirrored on every
control path, including both error paths. -/
def watcherGet {ε α : Type} (user : Bool) (wid : Nat) (reads : List Nat)
    (getterOutcome : Except ε α) (stack : List (Option Nat)) (w : WatcherDeps) :
    GetResult ε α :=
  -- pushTarget(this)
  let stack₁ := pushTarget (some wid) stack
  -- value = this.getter.call(vm, vm) — dependency registrations route to this
  let wEval := reads.foldl addDep w
  match getterOutcome with
  | .ok v =>
    -- finally { popTarget(); this.cleanupDeps() }; return value
    { stack := popTarget stack₁, wstate := cleanupDeps wEval, outcome := .ok (some v) }
  | .error e =>
    if user then
      -- catch: handleError(e, …); finally as above; return undefined
      { stack := popTarget stack₁, wstate := cleanupDeps wEval, outcome := .ok none }
    else
      -- catch: throw e; finally still runs before the exception propagates
      { stack := popTarget stack₁, wstate := cleanupDeps wEval, outcome := .error e }

/-- C10: `Watcher.get` leaves the active-computation stack (and hence
`Dep.target`) exactly as it found it and always applies `cleanupDeps` — the
dependency diff and the current/pending swap — to the state produced by the
evaluation, on every control path: normal return, caught-and-reported error of
a user watcher, and re-thrown error of an internal watcher. -/
theorem C10_get_restores_stack_and_cleans {ε α : Type} (user : Bool) (wid : Nat)
    (reads : List Nat) (getterOutcome : Except ε α) (stack : List (Option Nat))
    (w : WatcherDeps) :
    (watcherGet user wid reads getterOutcome stack w).stack = stack ∧
    depTarget (watcherGet user wid reads getterOutcome stack w).stack = depTarget stack ∧
    (watcherGet user wid reads getterOutcome stack w).wstate
      = cleanupDeps (reads.foldl addDep w) ∧
    ((watcherGet user wid reads getterOutcome stack w).outcome matches .error _
      ↔ (getterOutcome matches .error _) ∧ user = false) := by
  have hpop : popTarget (pushTarget (some wid) stack) = stack := by
    unfold popTarget pushTarget
    simp
  unfold watcherGet
  cases getterOutcome with
  | ok v => exact ⟨hpop, congrArg depTarget hpop, rfl, by simp⟩
  | error e =>
    cases user with
    | false => exact ⟨hpop, congrArg depTarget hpop, rfl, by simp⟩
    | true => exact ⟨hpop, congrArg depTarget hpop, rfl, by simp⟩

/-! ## Scheduler (`src/unnamed/part_004` lines 446-640)

A watcher, as the scheduler sees it: its creation id, plus a description of
what its `run()` does to the scheduler — `reenqueueSelf` is true for a node
whose run unconditionally re-invalidates itself (its `update()` calls
`queueWatcher(this)` again while the flush is running).  The embedding is of
the development build (`process.env.NODE_ENV !== 'production'`), where the
runaway-cycle guard is active, in the default async mode (`config.async`).
`warn` calls from the guard are counted in `errors`, and the order in which
`run()` fires is recorded in `runLog`.  The post-flush `activated`/`updated`
lifecycle notifications and the watcher `before` hooks act outside the queue
bookkeeping and are not modelled. -/
structure SWatcher where
  id : Nat
  reenqueueSelf : Bool
deriving DecidableEq, Repr

/-- Module state of the scheduler (`queue`, `has`, `circular`, `waiting`,
`flushing`, `index`), with the instrumentation fields `runLog`/`errors`. -/
structure SchedState where
  queue : List SWatcher
  has : List Nat
  circular : Nat → Nat
  index : Nat
  flushing : Bool
  waiting : Bool
  runLog : List Nat
  errors : Nat

/-- `MAX_UPDATE_COUNT` (`src/unnamed/part_004` line 446). -/
def MAX_UPDATE_COUNT : Nat := 100

/-- The `while (i > index && queue[i].id > watcher.id) i--` scan of
`queueWatcher`, started at `queue.length - 1`. -/
def spliceGo (queue : List SWatcher) (index wid : Nat) : Nat → Nat
  | 0 => 0
  | i + 1 =>
    if i + 1 > index
        && (match queue[i+1]? with | some w => decide (w.id > wid) | none => false) then
      spliceGo queue index wid i
    else i + 1

/-- `queueWatcher(watcher)` (`src/unnamed/part_004` lines 603-640).  The
`nextTick(flushSchedulerQueue)` registration is driven externally by
`runTick`. -/
def queueWatcher (s : SchedState) (w : SWatcher) : SchedState :=
  -- if (has[id] == null)
  if w.id ∈ s.has then s
  else
    -- has[id] = true
    let s₁ := { s with has := s.has ++ [w.id] }
    let s₂ :=
      if !s₁.flushing then
        -- queue.push(watcher)
        { s₁ with queue := s₁.queue ++ [w] }
      else
        -- splice the watcher in based on its id, after the running index
        let i := spliceGo s₁.queue s₁.index w.id (s₁.queue.length - 1)
        { s₁ with queue := s₁.queue.take (i + 1) ++ w :: s₁.queue.drop (i + 1) }
    -- if (!waiting) { waiting = true; nextTick(flushSchedulerQueue) }
    if !s₂.waiting then { s₂ with waiting := true } else s₂

/-- The `for (index = 0; index < queue.length; index++)` loop of
`flushSchedulerQueue`, fuelled (the queue may grow while it runs).  Running a
watcher whose evaluation unconditionally re-invalidates itself re-enters
`queueWatcher` with `flushing = true`. -/
def flushLoop : Nat → SchedState → SchedState
  | 0, s => s
  | fuel + 1, s =>
    match s.queue[s.index]? with
    | none => s
    | some w =>
      -- id = watcher.id; has[id] = null
      let s₁ := { s with has := s.has.erase w.id }
      -- watcher.run()
      let s₂ := { s₁ with runLog := s₁.runLog ++ [w.id] }
      let s₃ := if w.reenqueueSelf then queueWatcher s₂ w else s₂
      -- if (has[id] != null) { circular[id]++; if (circular[id] > MAX_UPDATE_COUNT) { warn(…); break } }
      if w.id ∈ s₃.has then
        let c := s₃.circular w.id + 1
        let s₄ := { s₃ with circular := fun d => if d = w.id then c else s₃.circular d }
        if c > MAX_UPDATE_COUNT then { s₄ with errors := s₄.errors + 1 }
        else flushLoop fuel { s₄ with index := s₄.index + 1 }
      else flushLoop fuel { s₃ with index := s₃.index + 1 }

/-- `flushSchedulerQueue()` (`src/unnamed/part_004` lines 506-563): set
`flushing`, sort the queue by ascending id (a stable sort, as
`queue.sort((a, b) => a.id - b.id)` on a modern engine), run the loop, then
`resetSchedulerState()`. -/
def flushSchedulerQueue (fuel : Nat) (s : SchedState) : SchedState :=
  let s₁ := { s with flushing := true,
                     queue := s.queue.insertionSort (fun a b => a.id ≤ b.id),
                     index := 0 }
  let s₂ := flushLoop fuel s₁
  { s₂ with index := 0, queue := [], has := [], circular := fun _ => 0,
            waiting := false, flushing := false }

/-- The idle scheduler state at the start of a tick. -/
def idleSched : SchedState :=
  { queue := [], has := [], circular := fun _ => 0, index := 0,
    flushing := false, waiting := false, runLog := [], errors := 0 }

/-- One tick: every watcher in `ws` is invalidated (in that order) while the
scheduler is idle, then the `nextTick` callback `flushSchedulerQueue` fires. -/
def runTick (fuel : Nat) (ws : List SWatcher) : SchedState :=
  flushSchedulerQueue fuel (ws.foldl queueWatcher idleSched)

/-! ## Claim C1 -/

set_option maxRecDepth 400000 in
/-- C1 counterexample: one flush with a runaway node (id 1, re-invalidates
itself on every run) and an ordinary node (id 2) pending behind it.  Exactly
one error is reported, but — contrary to the claim — the other pending node is
NOT run to completion of the flush: the guard's `break` abandons the whole
remaining flush, so node 2's evaluator never runs at all. -/
theorem C1_counterexample :
    (runTick 300 [⟨1, true⟩, ⟨2, false⟩]).errors = 1 ∧
    ¬ (2 ∈ (runTick 300 [⟨1, true⟩, ⟨2, false⟩]).runLog) := by decide

set_option maxRecDepth 400000 in
/-- C1 (amended): when a node re-enqueues itself beyond the per-flush ceiling,
exactly one error is reported, the offending node is abandoned only after
`MAX_UPDATE_COUNT + 1 = 101` runs (the guard fires when its counter exceeds
100, after `run()`), and the `break` abandons the whole remainder of the
flush: other nodes still pending behind the offender are not run. -/
theorem C1_amended_runaway_guard :
    (runTick 300 [⟨1, true⟩, ⟨2, false⟩]).errors = 1 ∧
    (runTick 300 [⟨1, true⟩, ⟨2, false⟩]).runLog.count 1 = MAX_UPDATE_COUNT + 1 ∧
    (runTick 300 [⟨1, true⟩, ⟨2, false⟩]).runLog.count 2 = 0 := by decide

/-! ## Claim C3 -/

/-- Enqueue phase: folding `queueWatcher` over the invalidations of one tick,
outside a running flush, keeps `has` equal to the queued ids (hence duplicate
ids are skipped) and only ever appends requested watchers. -/
theorem foldl_queueWatcher_spec (reqs : List SWatcher) :
    ∀ s : SchedState, s.flushing = false → s.has = s.queue.map (·.id) →
      s.has.Nodup →
      let t := reqs.foldl queueWatcher s
      t.flushing = false ∧ t.has = t.queue.map (·.id) ∧ t.has.Nodup ∧
      t.index = s.index ∧ t.runLog = s.runLog ∧ t.errors = s.errors ∧
      t.queue.length ≤ s.queue.length + reqs.length ∧
      (∀ w, w ∈ t.queue → w ∈ s.queue ∨ w ∈ reqs) ∧
      (∀ i, i ∈ t.queue.map (·.id) ↔
        i ∈ s.queue.map (·.id) ∨ ∃ w, w ∈ reqs ∧ w.id = i) := by
  induction reqs with
  | nil =>
    intro s hf hh hnd
    exact ⟨hf, hh, hnd, rfl, rfl, rfl, Nat.le_add_right _ _,
      fun w hw => Or.inl hw, fun i => by simp⟩
  | cons r rest ih =>
    intro s hf hh hnd
    by_cases hr : r.id ∈ s.has
    · have hq : queueWatcher s r = s := by unfold queueWatcher; simp [hr]
      simp only [List.foldl_cons, hq]
      obtain ⟨h₁, h₂, h₃, h₄, h₅, h₆, h₇, h₈, h₉⟩ := ih s hf hh hnd
      refine ⟨h₁, h₂, h₃, h₄, h₅, h₆,
        by simp only [List.length_cons]; omega,
        fun w hw => (h₈ w hw).imp id (List.mem_cons_of_mem r), fun i => ?_⟩
      rw [h₉ i]
      constructor
      · rintro (h | ⟨w, hw, hid⟩)
        · exact Or.inl h
        · exact Or.inr ⟨w, List.mem_cons_of_mem r hw, hid⟩
      · rintro (h | ⟨w, hw, hid⟩)
        · exact Or.inl h
        · rcases List.mem_cons.mp hw with hw | hw
          · subst hw; exact Or.inl (hid ▸ (hh ▸ hr))
          · exact Or.inr ⟨w, hw, hid⟩
    · have hq : ∃ s₂ : SchedState,
          queueWatcher s r = s₂ ∧
          s₂.queue = s.queue ++ [r] ∧ s₂.has = s.has ++ [r.id] ∧
          s₂.flushing = s.flushing ∧ s₂.index = s.index ∧
          s₂.runLog = s.runLog ∧ s₂.errors = s.errors := by
        unfold queueWatcher
        simp only [hr, if_neg, hf]
        by_cases hw : s.waiting <;> simp [hw]
      obtain ⟨s₂, hqe, hq₁, hq₂, hq₃, hq₄, hq₅, hq₆⟩ := hq
      have hh₂ : s₂.has = s₂.queue.map (·.id) := by
        rw [hq₁, hq₂, hh]; simp
      have hnd₂ : s₂.has.Nodup := by
        rw [hq₂]
        refine List.Nodup.append hnd (List.nodup_singleton _) ?_
        intro a ha hb
        rw [List.mem_singleton] at hb
        exact hr (hb ▸ ha)
      simp only [List.foldl_cons, hqe]
      obtain ⟨h₁, h₂, h₃, h₄, h₅, h₆, h₇, h₈, h₉⟩ :=
        ih s₂ (hq₃.trans hf) hh₂ hnd₂
      refine ⟨h₁, h₂, h₃, h₄.trans hq₄, h₅.trans hq₅, h₆.trans hq₆, ?_,
        fun w hw => ?_, fun i => ?_⟩
      · have := h₇
        rw [hq₁] at this
        simp only [List.length_append, List.length_cons, List.length_nil] at this ⊢
        omega
      · rcases h₈ w hw with hmem | hmem
        · rw [hq₁] at hmem
          rcases List.mem_append.mp hmem with hmem | hmem
          · exact Or.inl hmem
          · rw [List.mem_singleton] at hmem
            exact Or.inr (hmem ▸ List.mem_cons_self r rest)
        · exact Or.inr (List.mem_cons_of_mem r hmem)
      · rw [h₉ i, hq₁]
        simp only [List.map_append, List.mem_append, List.map_cons, List.map_nil,
          List.mem_singleton, List.mem_cons]
        constructor
        · rintro ((h | h) | ⟨w, hw, hid⟩)
          · exact Or.inl h
          · simp only [List.mem_cons, List.not_mem_nil, or_false] at h
            exact Or.inr ⟨r, Or.inl rfl, h.symm⟩
          · exact Or.inr ⟨w, Or.inr hw, hid⟩
        · rintro (h | ⟨w, hw | hw, hid⟩)
          · exact Or.inl (Or.inl h)
          · subst hw; exact Or.inl (Or.inr (by simp [hid]))
          · exact Or.inr ⟨w, hw, hid⟩

/-- The flush loop, when no queued watcher re-invalidates anything: it runs
each entry from `index` to the end of the (unchanging) queue exactly once, in
queue order, and reports no error. -/
theorem flushLoop_no_reenqueue (fuel : Nat) :
    ∀ s : SchedState, (∀ w ∈ s.queue, w.reenqueueSelf = false) → s.has.Nodup →
      s.queue.length - s.index ≤ fuel →
      (flushLoop fuel s).runLog = s.runLog ++ (s.queue.drop s.index).map (·.id) ∧
      (flushLoop fuel s).errors = s.errors := by
  induction fuel with
  | zero =>
    intro s _ _ hfuel
    have : s.queue.length ≤ s.index := by omega
    rw [List.drop_eq_nil_of_le this]
    exact ⟨by simp [flushLoop], rfl⟩
  | succ fuel ih =>
    intro s hq hnd hfuel
    unfold flushLoop
    cases hw : s.queue[s.index]? with
    | none =>
      have : s.queue.length ≤ s.index := by
        by_contra h
        rw [List.getElem?_eq_getElem (by omega)] at hw
        exact Option.noConfusion hw
      rw [List.drop_eq_nil_of_le this]
      exact ⟨by simp, rfl⟩
    | some w =>
      have hlt : s.index < s.queue.length := by
        by_contra h
        rw [List.getElem?_eq_none (by omega)] at hw
        exact Option.noConfusion hw
      have hwq : w ∈ s.queue := by
        have := List.getElem?_eq_some.mp hw
        obtain ⟨hl, hget⟩ := this
        exact hget ▸ List.getElem_mem _
      have hre : w.reenqueueSelf = false := hq w hwq
      simp only [hre, Bool.false_eq_true, if_false]
      have hmem : w.id ∉ (s.has.erase w.id) := fun h =>
        absurd ((List.Nodup.mem_erase_iff hnd).mp h).1 (by simp)
      simp only [hmem, if_false]
      have hrec := ih
        { s with has := s.has.erase w.id, runLog := s.runLog ++ [w.id],
                 index := s.index + 1 }
        (by intro w' hw'; exact hq w' hw') (List.Nodup.erase _ hnd)
        (by simp only; omega)
      obtain ⟨hlog, herr⟩ := hrec
      refine ⟨?_, herr⟩
      rw [hlog]
      simp only
      rw [List.drop_eq_getElem_cons hlt]
      have hgete : s.queue[s.index] = w := (List.getElem?_eq_some.mp hw).2
      rw [hgete]
      simp

instance : IsTotal SWatcher (fun a b => a.id ≤ b.id) :=
  ⟨fun a b => Nat.le_total a.id b.id⟩

instance : IsTrans SWatcher (fun a b => a.id ≤ b.id) :=
  ⟨fun _ _ _ => Nat.le_trans⟩

/-- C3: for any set of computation nodes invalidated within one tick (none of
which re-invalidates during the flush), the flush runs each node's evaluator
exactly once, and the run log is strictly ascending in creation id — so for
ids `i1 < i2` invalidated in the same tick, `i1`'s run completes before `i2`'s
begins.  Duplicate invalidations of the same node are deduplicated. -/
theorem C3_flush_each_once_ascending_ids (fuel : Nat) (reqs : List SWatcher)
    (hn : ∀ w ∈ reqs, w.reenqueueSelf = false) (hfuel : reqs.length ≤ fuel) :
    (runTick fuel reqs).runLog.Pairwise (· < ·) ∧
    (∀ w ∈ reqs, (runTick fuel reqs).runLog.count w.id = 1) ∧
    (∀ i, i ∈ (runTick fuel reqs).runLog ↔ ∃ w, w ∈ reqs ∧ w.id = i) := by
  obtain ⟨h₁, h₂, h₃, h₄, h₅, h₆, h₇, h₈, h₉⟩ :=
    foldl_queueWatcher_spec reqs idleSched rfl rfl List.nodup_nil
  set t := reqs.foldl queueWatcher idleSched with htdef
  set q := t.queue.insertionSort (fun a b => a.id ≤ b.id) with hqdef
  have hperm : q.Perm t.queue := List.perm_insertionSort _ _
  have hsorted : q.Sorted (fun a b => a.id ≤ b.id) := List.sorted_insertionSort _ _
  have hmapperm : (q.map (·.id)).Perm (t.queue.map (·.id)) := hperm.map _
  have hndq : (q.map (·.id)).Nodup := hmapperm.nodup_iff.mpr (h₂ ▸ h₃)
  have hlog : (runTick fuel reqs).runLog = q.map (·.id) := by
    have hstep : (runTick fuel reqs).runLog =
        (flushLoop fuel { t with flushing := true, queue := q, index := 0 }).runLog := rfl
    rw [hstep]
    have := (flushLoop_no_reenqueue fuel
      { t with flushing := true, queue := q, index := 0 }
      (fun w hw => by
        rcases h₈ w (hperm.mem_iff.mp hw) with hmem | hmem
        · exact absurd hmem (List.not_mem_nil w)
        · exact hn w hmem)
      h₃
      (by
        have hlen : q.length = t.queue.length := hperm.length_eq
        simp only [hlen]
        have hbound := h₇
        simp only [idleSched, List.length_nil, Nat.zero_add] at hbound
        omega)).1
    rw [this, h₅]
    simp [idleSched]
  refine ⟨?_, ?_, ?_⟩
  · rw [hlog]
    have hle : (q.map (·.id)).Pairwise (· ≤ ·) := by
      rw [List.pairwise_map]
      exact hsorted
    have hne : (q.map (·.id)).Pairwise (· ≠ ·) := hndq
    exact (hle.and hne).imp fun h => Nat.lt_of_le_of_ne h.1 h.2
  · intro w hw
    rw [hlog]
    refine List.count_eq_one_of_mem hndq ?_
    refine hmapperm.mem_iff.mpr ?_
    exact (h₉ w.id).mpr (Or.inr ⟨w, hw, rfl⟩)
  · intro i
    rw [hlog]
    rw [hmapperm.mem_iff, h₉ i]
    simp [idleSched]

theorem C3_witness :
    ((∀ w ∈ [SWatcher.mk 3 false, SWatcher.mk 1 false], w.reenqueueSelf = false) ∧
      [SWatcher.mk 3 false, SWatcher.mk 1 false].length ≤ 10) ∧
    (runTick 10 [SWatcher.mk 3 false, SWatcher.mk 1 false]).runLog.Pairwise (· < ·) :=
  ⟨⟨by decide, by decide⟩,
   (C3_flush_each_once_ascending_ids 10 [SWatcher.mk 3 false, SWatcher.mk 1 false]
     (by decide) (by decide)).1⟩


/-! ## Static analyzer (`src/unnamed/part_000`, `optimize`/`markStatic`/
`markStaticRoots`/`isStatic`)

The compiler AST, restricted to what the optimizer reads.  `type === 2`
(expression-bearing text) and `type === 3` (plain text) nodes are the `expr`
and `text` constructors.  An element (`type === 1`) carries the fields the
optimizer inspects.  `node.ifConditions` stores, from index 1 on, the
`v-else(-if)` blocks attached to a `v-if` element (index 0 is the element
itself, which the optimizer's loops skip by starting at `i = 1`); those blocks
are kept in `ifBlocks` here.  Since else-blocks are created with the same
parent as their `v-if` sibling, they are recursed into with the same ancestor
chain as the element that owns them, while `children` extend the chain.
`Object.keys(node).every(isStaticKey)` depends on which annotation keys the
parser added to the element object and enters the model as the input field
`allKeysStatic`.  `attrsMap['inline-template'] == null` is `¬ inlineTemplate`.
Child lists are a mutually defined list type so that every traversal below is
a plain structural recursion. -/
structure ElemData where
  tag : String
  pre : Bool
  once : Bool
  hasBindings : Bool
  hasIf : Bool
  hasFor : Bool
  inlineTemplate : Bool
  allKeysStatic : Bool
deriving DecidableEq, Repr

mutual
/-- AST node (`ASTNode` = element / expression / text). -/
inductive ASTNode where
  | elem (d : ElemData) (children : ASTList) (ifBlocks : ASTList)
  | expr
  | text

/-- A list of AST nodes (`node.children` / the tail of `node.ifConditions`). -/
inductive ASTList where
  | nil
  | cons (head : ASTNode) (tail : ASTList)
end

mutual
/-- The optimizer's output: the same tree annotated with the flags the two
passes write (`static`, `staticRoot`, `staticInFor`; all JS-`undefined`
before being assigned, modelled as `false`). -/
inductive OptNode where
  | elem (d : ElemData) (staticFlag staticRoot staticInFor : Bool)
      (children : OptList) (ifBlocks : OptList)
  | expr (staticFlag : Bool)
  | text (staticFlag : Bool)

/-- A list of annotated nodes. -/
inductive OptList where
  | nil
  | cons (head : OptNode) (tail : OptList)
end

/-- `length` of an annotated child list. -/
def OptList.length : OptList → Nat
  | .nil => 0
  | .cons _ t => t.length + 1

/-- The `static` flag of an annotated node. -/
def OptNode.staticOf : OptNode → Bool
  | .elem _ s _ _ _ _ => s
  | .expr s => s
  | .text s => s

/-- `children.every(child => child.static)` — the conjunction the first pass
folds into the parent's flag. -/
def OptList.allStatic : OptList → Bool
  | .nil => true
  | .cons h t => h.staticOf && t.allStatic

/-- `isBuiltInTag` (`shared/util`, imported by the optimizer):
`makeMap('slot,component')`. -/
def isBuiltInTag (tag : String) : Bool :=
  tag == "slot" || tag == "component"

/-- `isDirectChildOfTemplateFor`: walk the ancestor chain (nearest first);
every ancestor must be a `template`, and one of them must carry `v-for`.
`ancestors` lists, for each ancestor, its tag and its `for` flag. -/
def isDirectChildOfTemplateFor : List (String × Bool) → Bool
  | [] => false
  | (tag, forFlag) :: rest =>
    if tag != "template" then false
    else if forFlag then true
    else isDirectChildOfTemplateFor rest

/-- `isStatic(node)` for an element node (`src/unnamed/part_000` lines
115-136); `isReserved` is the platform's `isReservedTag` option. -/
def isStaticElem (isReserved : String → Bool) (d : ElemData)
    (ancestors : List (String × Bool)) : Bool :=
  d.pre ||
    (!d.hasBindings && !d.hasIf && !d.hasFor && !isBuiltInTag d.tag &&
      isReserved d.tag && !isDirectChildOfTemplateFor ancestors &&
      d.allKeysStatic)

mutual
/-- A subtree the first pass never visits: every flag keeps its JS-`undefined`
(falsy) value. -/
def unvisited : ASTNode → OptNode
  | .elem d children ifBlocks =>
    .elem d false false false (unvisitedList children) (unvisitedList ifBlocks)
  | .expr => .expr false
  | .text => .text false

def unvisitedList : ASTList → OptList
  | .nil => .nil
  | .cons h t => .cons (unvisited h) (unvisitedList t)
end

mutual
/-- First pass, `markStatic(node)` (`src/unnamed/part_000` lines 42-78).
Text is static, expressions are not; an element gets `isStatic`, and — unless
it is a non-reserved (component) tag other than `slot` without
`inline-template`, in which case the pass returns before visiting the
subtree — is downgraded to non-static when any child or else-block is
non-static. -/
def markStatic (isReserved : String → Bool) :
    ASTNode → List (String × Bool) → OptNode
  | .expr, _ => .expr false
  | .text, _ => .text true
  | .elem d children ifBlocks, ancestors =>
    let st := isStaticElem isReserved d ancestors
    if !isReserved d.tag && d.tag != "slot" && !d.inlineTemplate then
      .elem d st false false (unvisitedList children) (unvisitedList ifBlocks)
    else
      let children' := markStaticList isReserved children ((d.tag, d.hasFor) :: ancestors)
      let ifBlocks' := markStaticList isReserved ifBlocks ancestors
      .elem d (st && children'.allStatic && ifBlocks'.allStatic)
        false false children' ifBlocks'

def markStaticList (isReserved : String → Bool) :
    ASTList → List (String × Bool) → OptList
  | .nil, _ => .nil
  | .cons h t, ancestors =>
    .cons (markStatic isReserved h ancestors) (markStaticList isReserved t ancestors)
end

/-- `node.children[0].type === 3`. -/
def isTextNode : OptNode → Bool
  | .text _ => true
  | _ => false

/-- `children.length === 1 && children[0].type === 3` — the "merely a single
literal-text child" test of the second pass. -/
def OptList.singleTextChild : OptList → Bool
  | .cons h .nil => isTextNode h
  | _ => false

mutual
/-- Second pass, `markStaticRoots(node, isInFor)` (`src/unnamed/part_000`
lines 80-112).  Once a static root is found the pass `return`s without
recursing into its children or else-blocks. -/
def markStaticRoots (isInFor : Bool) : OptNode → OptNode
  | .elem d st _ _ children ifBlocks =>
    let sif := if st || d.once then isInFor else false
    if st && children.length != 0 && !children.singleTextChild then
      .elem d st true sif children ifBlocks
    else
      .elem d st false sif
        (markStaticRootsList (isInFor || d.hasFor) children)
        (markStaticRootsIfList isInFor ifBlocks)
  | n => n

def markStaticRootsList (isInFor : Bool) : OptList → OptList
  | .nil => .nil
  | .cons h t => .cons (markStaticRoots isInFor h) (markStaticRootsList isInFor t)

def markStaticRootsIfList (isInFor : Bool) : OptList → OptList
  | .nil => .nil
  | .cons h t => .cons (markStaticRoots isInFor h) (markStaticRootsIfList isInFor t)
end

/-- `optimize(root, options)` (`src/unnamed/part_000` lines 22-32): first pass
then second pass with `isInFor = false`. -/
def optimize (isReserved : String → Bool) (root : ASTNode) : OptNode :=
  markStaticRoots false (markStatic isReserved root [])

/-- `el.staticRoot` of an annotated node (`false` for non-elements). -/
def OptNode.staticRootOf : OptNode → Bool
  | .elem _ _ r _ _ _ => r
  | _ => false

/-- `el.for` (as a flag) of an annotated node. -/
def OptNode.hasForOf : OptNode → Bool
  | .elem d _ _ _ _ _ => d.hasFor
  | _ => false

/-- The first child of an annotated element. -/
def OptNode.firstChild : OptNode → Option OptNode
  | .elem _ _ _ _ (.cons h _) _ => some h
  | _ => none

/-- A sample platform `isReservedTag` for concrete runs. -/
def demoReserved (t : String) : Bool :=
  t == "div" || t == "span" || t == "b"

/-- `<b>text</b>` — a plain reserved element with one text child. -/
def bTree : ASTNode :=
  .elem ⟨"b", false, false, false, false, false, false, true⟩ (.cons .text .nil) .nil

/-- `<span><b>text</b></span>` — plain, reserved, all keys static. -/
def spanTree : ASTNode :=
  .elem ⟨"span", false, false, false, false, false, false, true⟩ (.cons bTree .nil) .nil

/-- `<div v-for="…"><span><b>text</b></span></div>` — the root carries the
loop binding (its `for`/`alias` keys also make `allKeysStatic` false). -/
def divForTree : ASTNode :=
  .elem ⟨"div", false, false, false, false, true, false, false⟩ (.cons spanTree .nil) .nil

/-- C2 counterexample: in `<div v-for><span><b>text</b></span></div>` the root
carries the loop binding, yet after the two optimizer passes the `<span>`
strictly inside its subtree IS marked as a static root (`markStaticRoots` only
records `staticInFor`; it does not suppress static roots under `v-for`) —
contradicting the claim that no element inside a `v-for` subtree is marked as
a static root. -/
theorem C2_counterexample :
    OptNode.hasForOf (optimize demoReserved divForTree) = true ∧
    ((optimize demoReserved divForTree).firstChild).map OptNode.staticRootOf
      = some true := by
  constructor
  · rfl
  · rfl

/-- C2 (amended): after the two passes, (a) a leaf element with only literal
attributes (no bindings, all annotation keys static) and no structural
directives, which is a reserved platform tag, not a built-in, and not the
direct child of a `<template v-for>`, has `static = true`; and (b) an element
that itself carries a loop binding (and, as in any parser-produced AST, is not
`v-pre`) is never marked as a static root — but its descendants may be (see
the counterexample), so only the `v-for` element itself is excluded. -/
theorem C2_amended_static_marking
    (isReserved : String → Bool) (d : ElemData)
    (ancestors : List (String × Bool)) (isInFor : Bool)
    (children ifBlocks : ASTList) :
    (d.hasBindings = false → d.hasIf = false → d.hasFor = false →
      isBuiltInTag d.tag = false → isReserved d.tag = true →
      isDirectChildOfTemplateFor ancestors = false → d.allKeysStatic = true →
      (markStaticRoots isInFor
        (markStatic isReserved (.elem d .nil .nil) ancestors)).staticOf = true) ∧
    (d.hasFor = true → d.pre = false →
      (markStaticRoots isInFor
        (markStatic isReserved (.elem d children ifBlocks) ancestors)).staticRootOf
        = false) := by
  constructor
  · intro h₁ h₂ h₃ h₄ h₅ h₆ h₇
    have hst : isStaticElem isReserved d ancestors = true := by
      unfold isStaticElem
      simp [h₁, h₂, h₃, h₄, h₅, h₆, h₇]
    unfold markStatic
    simp only [h₅, Bool.not_true, Bool.false_and, Bool.false_eq_true, if_false]
    unfold markStaticRoots
    simp [hst, markStaticList, OptList.allStatic, OptList.length,
      OptList.singleTextChild, OptNode.staticOf, markStaticRootsList,
      markStaticRootsIfList]
  · intro hfor hpre
    have hst : isStaticElem isReserved d ancestors = false := by
      unfold isStaticElem
      simp [hfor, hpre]
    unfold markStatic
    by_cases hres : (!isReserved d.tag && d.tag != "slot" && !d.inlineTemplate) = true
    · simp only [hres, if_true]
      unfold markStaticRoots
      simp [hst, OptNode.staticRootOf]
    · simp only [hres, if_false]
      unfold markStaticRoots
      simp [hst, OptNode.staticRootOf]

theorem C2_amended_witness :
    ((ElemData.mk "b" false false false false false false true).hasBindings = false ∧
      demoReserved "b" = true ∧
      isDirectChildOfTemplateFor [("div", false)] = false) ∧
    (markStaticRoots false
      (markStatic demoReserved
        (.elem (ElemData.mk "b" false false false false false false true) .nil .nil)
        [("div", false)])).staticOf = true :=
  ⟨⟨rfl, rfl, rfl⟩,
   (C2_amended_static_marking demoReserved
      (ElemData.mk "b" false false false false false false true)
      [("div", false)] false .nil .nil).1
     rfl rfl rfl rfl rfl rfl rfl⟩

/-! ## JS string helpers shared by the compiler embeddings -/

/-- A JavaScript whitespace character (the common members of `\s` /
`String.prototype.trim`'s set that can occur in template expressions). -/
def isJsWs (c : Char) : Bool :=
  c == ' ' || c == '\t' || c == '\n' || c == '\r' ||
    c == '\x0b' || c == '\x0c'

/-- `String.prototype.trim()`. -/
def jsTrim (s : String) : String :=
  ⟨(((s.toList.dropWhile isJsWs).reverse.dropWhile isJsWs).reverse)⟩

/-! ## `addHandler` (`src/src/compiler/create-compiler.js` lines 180-307)

The event-modifier object, restricted to the flags `addHandler` itself reads
and deletes (other modifiers such as `stop`/`self` ride along unchanged and do
not influence the control flow).  The dev-only `prevent`+`passive` warning
does not affect the stored entries and is not recorded. -/
structure HModifiers where
  prevent : Bool
  passive : Bool
  right : Bool
  middle : Bool
  capture : Bool
  once : Bool
  native : Bool
deriving DecidableEq, Repr

/-- The default all-false modifier object. -/
def HModifiers.none' : HModifiers := ⟨false, false, false, false, false, false, false⟩

/-- One stored handler entry (`rangeSetItem({ value: value.trim(), dynamic })`,
plus `modifiers` when the call site passed a modifier object; source ranges
are not modelled).  `modifiers = none` models the property being absent
(`modifiers === emptyObject`). -/
structure Handler where
  value : String
  dynamic : Bool
  modifiers : Option HModifiers
deriving DecidableEq, Repr

/-- `events[name]`: either a single handler or an array of handlers. -/
inductive HandlerEntry where
  | single (h : Handler)
  | arr (hs : List Handler)
deriving DecidableEq, Repr

/-- JS object lookup on the events map. -/
def lookupEv : List (String × HandlerEntry) → String → Option HandlerEntry
  | [], _ => none
  | (k, v) :: rest, name => if k == name then some v else lookupEv rest name

/-- JS object property assignment on the events map. -/
def setEv : List (String × HandlerEntry) → String → HandlerEntry →
    List (String × HandlerEntry)
  | [], name, v => [(name, v)]
  | (k, w) :: rest, name, v =>
    if k == name then (k, v) :: rest else (k, w) :: setEv rest name v

/-- The slice of an AST element `addHandler` mutates. -/
structure ElState where
  events : List (String × HandlerEntry)
  nativeEvents : List (String × HandlerEntry)
  plain : Bool
deriving DecidableEq, Repr

/-- `prependModifierMarker(symbol, name, dynamic)`. -/
def prependModifierMarker (symbol name : String) (dynamic : Bool) : String :=
  if dynamic then "_p(" ++ name ++ ",\"" ++ symbol ++ "\")"
  else symbol ++ name

/-- `addHandler(el, name, value, modifiers, important, warn, range, dynamic)`
(`src/src/compiler/create-compiler.js` lines 180-304).  The
duplicate-registration logic at the end of the function is transcribed as the
braces actually close in this file: the final `else` branch is EMPTY (the
`events[name] = newHandler` line below it sits after the whole
if/else-if/else chain), so after an existing array entry is pushed/unshifted
in place, or a single entry is promoted to a two-element array, the entry is
unconditionally overwritten with the bare `newHandler`.  The function's
closing brace follows that assignment; the `el.plain = false` line and one
further `}` are stranded at module level outside the function (the module as
written has one unmatched closing brace), so `addHandler` itself does not
touch `el.plain`. -/
def addHandler (el : ElState) (name value : String)
    (modifiers : Option HModifiers) (important : Bool) (dynamic : Bool) :
    ElState :=
  -- modifiers = modifiers || emptyObject
  let origNone := modifiers.isNone
  let m := modifiers.getD HModifiers.none'
  -- normalize click.right and click.middle
  let nm :=
    if m.right then
      if dynamic then ("(" ++ name ++ ")==='click'?'contextmenu':(" ++ name ++ ")", m)
      else if name == "click" then ("contextmenu", { m with right := false })
      else (name, m)
    else if m.middle then
      if dynamic then ("(" ++ name ++ ")==='click'?'mouseup':(" ++ name ++ ")", m)
      else if name == "click" then ("mouseup", m)
      else (name, m)
    else (name, m)
  -- capture / once / passive markers (each deletes its flag)
  let nm :=
    if nm.2.capture then
      (prependModifierMarker "!" nm.1 dynamic, { nm.2 with capture := false })
    else nm
  let nm :=
    if nm.2.once then
      (prependModifierMarker "~" nm.1 dynamic, { nm.2 with once := false })
    else nm
  let nm :=
    if nm.2.passive then
      (prependModifierMarker "&" nm.1 dynamic, { nm.2 with passive := false })
    else nm
  -- events = native ? el.nativeEvents : el.events (deleting modifiers.native)
  let useNative := nm.2.native
  let finalName := nm.1
  let finalMods := if useNative then { nm.2 with native := false } else nm.2
  let events := if useNative then el.nativeEvents else el.events
  let newHandler : Handler :=
    { value := jsTrim value, dynamic := dynamic,
      modifiers := if origNone then none else some finalMods }
  -- if (Array.isArray(handlers)) … else if (handlers) … else { }  (empty)
  let events₁ :=
    match lookupEv events finalName with
    | some (.arr hs) =>
      setEv events finalName
        (.arr (if important then newHandler :: hs else hs ++ [newHandler]))
    | some (.single h) =>
      setEv events finalName
        (.arr (if important then [newHandler, h] else [h, newHandler]))
    | none => events
  -- events[name] = newHandler  (unconditional: it follows the whole chain)
  let events₂ := setEv events₁ finalName (.single newHandler)
  if useNative then { el with nativeEvents := events₂ }
  else { el with events := events₂ }

/-- Assigning then reading the same key on the events map. -/
theorem lookupEv_setEv (m : List (String × HandlerEntry)) (k : String)
    (v : HandlerEntry) : lookupEv (setEv m k v) k = some v := by
  induction m with
  | nil => simp [setEv, lookupEv]
  | cons kv rest ih =>
    obtain ⟨k', w⟩ := kv
    unfold setEv
    by_cases hk : (k' == k) = true
    · simp [hk, lookupEv]
    · simp only [hk, Bool.false_eq_true, if_false]
      unfold lookupEv
      simp [hk, ih]

/-- C7: the duplicate-registration path of `addHandler` always overwrites
`events[name]` with the last-seen handler entry — the assignment
`events[name] = newHandler` executes unconditionally after the
array-push / single-to-array-promotion chain, clobbering whatever that chain
stored — so after any registration with no modifiers the stored entry is the
bare new handler, and in particular after registering two handlers for the
same event name the stored entry equals only the second handler. -/
theorem C7_addHandler_overwrites_with_last (el : ElState) (name value : String)
    (important dynamic : Bool) :
    lookupEv (addHandler el name value none important dynamic).events name
      = some (.single ⟨jsTrim value, dynamic, none⟩) ∧
    lookupEv (addHandler
        (addHandler (ElState.mk [] [] true) "click" "h1" none false false)
        "click" "h2" none false false).events "click"
      = some (.single ⟨"h2", false, none⟩) := by
  constructor
  · unfold addHandler
    simp only [HModifiers.none', Option.isNone_none, Option.getD_none,
      Bool.false_eq_true, if_false]
    cases h : lookupEv el.events name with
    | none => simp [h, lookupEv_setEv]
    | some e => cases e <;> simp [h, lookupEv_setEv]
  · rfl

/-! ## Filter-chain parser (`src/src/compiler/parser/filter-parser.js`) -/

/-- `exp.charCodeAt(i)` (`none` models the `NaN` of an out-of-range index). -/
def codeAt (cs : List Char) (i : Nat) : Option Nat :=
  (cs[i]?).map Char.toNat

/-- `exp.slice(start, stop)`. -/
def strSlice (cs : List Char) (start stop : Nat) : String :=
  ⟨(cs.take stop).drop start⟩

/-- `validDivisionCharRE = /[\w).+\-_$\]]/` applied to one character. -/
def validDivisionChar (c : Char) : Bool :=
  c.isAlphanum || c == '_' || c == ')' || c == '.' || c == '+' ||
    c == '-' || c == '$' || c == ']'

/-- Value of `p` after the backward scan
`for (j = i - 1; j >= 0; j--) { p = exp.charAt(j); if (p !== ' ') break }`:
the nearest non-space character before position `j + 1`, or `exp[0]` (a space)
when only spaces precede it. -/
def divisionPrevGo (cs : List Char) : Nat → Option Char
  | 0 => cs[0]?
  | j + 1 =>
    match cs[j + 1]? with
    | some ch => if ch != ' ' then some ch else divisionPrevGo cs j
    | none => none

/-- `p` for current index `i` (`none`: the loop body never ran and `p` is
`undefined`). -/
def divisionPrev (cs : List Char) (i : Nat) : Option Char :=
  if i = 0 then none else divisionPrevGo cs (i - 1)

/-- The parser state of `parseFilters`: the string/template/regex flags, the
three bracket depths (JS numbers, hence `Int`), `lastFilterIndex`,
`expression`, `filters`, and the previous iteration's character code `c`
(undefined before the first iteration). -/
structure PFState where
  inSingle : Bool
  inDouble : Bool
  inTemplateString : Bool
  inRegex : Bool
  curly : Int
  square : Int
  paren : Int
  lastFilterIndex : Nat
  expression : Option String
  filters : List String
  c : Option Nat
deriving DecidableEq, Repr

/-- `pushFilter()` at scan position `i`. -/
def pushFilter (cs : List Char) (i : Nat) (s : PFState) : PFState :=
  { s with
    filters := s.filters ++ [jsTrim (strSlice cs s.lastFilterIndex i)],
    lastFilterIndex := i + 1 }

/-- One iteration of the `for` loop of `parseFilters` at index `i`. -/
def pfStep (cs : List Char) (s : PFState) (i : Nat) : PFState :=
  let prev := s.c
  let c := codeAt cs i
  if s.inSingle then
    if c == some 0x27 && prev != some 0x5C then { s with c := c, inSingle := false }
    else { s with c := c }
  else if s.inDouble then
    if c == some 0x22 && prev != some 0x5C then { s with c := c, inDouble := false }
    else { s with c := c }
  else if s.inTemplateString then
    if c == some 0x60 && prev != some 0x5C then { s with c := c, inTemplateString := false }
    else { s with c := c }
  else if s.inRegex then
    if c == some 0x2f && prev != some 0x5C then { s with c := c, inRegex := false }
    else { s with c := c }
  else if c == some 0x7C &&
      codeAt cs (i + 1) != some 0x7C &&
      (if i = 0 then none else codeAt cs (i - 1)) != some 0x7C &&
      s.curly == 0 && s.square == 0 && s.paren == 0 then
    match s.expression with
    | none =>
      -- first filter, end of expression
      { s with c := c, lastFilterIndex := i + 1,
               expression := some (jsTrim (strSlice cs 0 i)) }
    | some _ => pushFilter cs i { s with c := c }
  else
    let s := { s with c := c }
    let s :=
      match c with
      | some 0x22 => { s with inDouble := true }
      | some 0x27 => { s with inSingle := true }
      | some 0x60 => { s with inTemplateString := true }
      | some 0x28 => { s with paren := s.paren + 1 }
      | some 0x29 => { s with paren := s.paren - 1 }
      | some 0x5B => { s with square := s.square + 1 }
      | some 0x5D => { s with square := s.square - 1 }
      | some 0x7B => { s with curly := s.curly + 1 }
      | some 0x7D => { s with curly := s.curly - 1 }
      | _ => s
    if c == some 0x2f then
      match divisionPrev cs i with
      | none => { s with inRegex := true }
      | some p => if !validDivisionChar p then { s with inRegex := true } else s
    else s

/-- The scan of `parseFilters` up to the trailing `pushFilter`/`expression`
fix-up, returning the base expression and the filter list. -/
def parseFiltersSplit (exp : String) : String × List String :=
  let cs := exp.toList
  let s₀ : PFState :=
    { inSingle := false, inDouble := false, inTemplateString := false,
      inRegex := false, curly := 0, square := 0, paren := 0,
      lastFilterIndex := 0, expression := none, filters := [], c := none }
  let s := (List.range cs.length).foldl (pfStep cs) s₀
  match s.expression with
  | none => (jsTrim (strSlice cs 0 cs.length), s.filters)
  | some e =>
    if s.lastFilterIndex ≠ 0 then
      let s' := pushFilter cs cs.length s
      (e, s'.filters)
    else (e, s.filters)

/-- `wrapFilter(exp, filter)`. -/
def wrapFilter (exp filter : String) : String :=
  match filter.toList.findIdx? (· == '(') with
  | none => "_f(\"" ++ filter ++ "\")(" ++ exp ++ ")"
  | some i =>
    let name : String := ⟨filter.toList.take i⟩
    let args : String := ⟨filter.toList.drop (i + 1)⟩
    "_f(\"" ++ name ++ "\")(" ++ exp ++ (if args != ")" then "," ++ args else args)

/-- `parseFilters(exp)`: split, then wrap each filter around the accumulated
expression, left to right. -/
def parseFilters (exp : String) : String :=
  let (expression, filters) := parseFiltersSplit exp
  filters.foldl wrapFilter expression

/-- C8: `"msg | filterA | filterB(arg)"` splits into base expression `"msg"`
with filters `["filterA", "filterB(arg)"]` and rewrites to
`_f("filterB")(_f("filterA")(msg),arg)`; and splitting happens only on single
top-level pipes — a double pipe (`||`), a pipe inside parentheses, inside
brackets or braces, or inside a string literal does not split. -/
theorem C8_parseFilters :
    parseFiltersSplit "msg | filterA | filterB(arg)"
      = ("msg", ["filterA", "filterB(arg)"]) ∧
    parseFilters "msg | filterA | filterB(arg)"
      = "_f(\"filterB\")(_f(\"filterA\")(msg),arg)" ∧
    parseFilters "a || b" = "a || b" ∧
    parseFilters "f(a | b)" = "f(a | b)" ∧
    parseFilters "arr[i | 0]" = "arr[i | 0]" ∧
    parseFilters "{ a | b }" = "{ a | b }" ∧
    parseFilters "'a | b'" = "'a | b'" :=
  ⟨rfl, rfl, rfl, rfl, rfl, rfl, rfl⟩

/-! ## HTML scanner (`src/src/compiler/parser/html-parser.js`)

The regex-driven lexer is embedded with hand-rolled matchers over `List Char`
that implement the semantics of the source's regular expressions (each matcher
notes the regex it implements).  Events are collected into a list instead of
being dispatched through the `options.start`/`end`/`chars`/`comment`
callbacks; source positions are not recorded (the claims do not mention
them). -/

/-- Modelled from the spec: `unicodeRegExp` (`core/util/lang`) is imported by
the scanner for the tag-name character class, but its defining file is not
among the sources; these are the character ranges of that regex (the HTML
potential-custom-element-name letters).  Every input in the claims is ASCII,
so only the ASCII part below is ever exercised. -/
def ncnameUnicodeChar (c : Char) : Bool :=
  let n := c.toNat
  n == 0xB7 || (0xC0 ≤ n && n ≤ 0xD6) || (0xD8 ≤ n && n ≤ 0xF6) ||
    (0xF8 ≤ n && n ≤ 0x37D) || (0x37F ≤ n && n ≤ 0x1FFF) ||
    (0x200C ≤ n && n ≤ 0x200D) || (0x203F ≤ n && n ≤ 0x2040) ||
    (0x2070 ≤ n && n ≤ 0x218F) || (0x2C00 ≤ n && n ≤ 0x2FEF) ||
    (0x3001 ≤ n && n ≤ 0xD7FF) || (0xF900 ≤ n && n ≤ 0xFDCF) ||
    (0xFDF0 ≤ n && n ≤ 0xFFFD)

/-- First character of `ncname`: `[a-zA-Z_]`. -/
def ncnameStartChar (c : Char) : Bool :=
  c.isAlpha || c == '_'

/-- Later characters of `ncname`: `[\-\.0-9_a-zA-Z…unicode…]`. -/
def ncnameRestChar (c : Char) : Bool :=
  c == '-' || c == '.' || c.isDigit || c == '_' || c.isAlpha ||
    ncnameUnicodeChar c

/-- Maximal-munch length of one `ncname` at the head of the input
(`none` when the first character is not a name-start character). -/
def ncnameLen (cs : List Char) : Option Nat :=
  match cs with
  | c :: rest =>
    if ncnameStartChar c then some (1 + (rest.takeWhile ncnameRestChar).length)
    else none
  | [] => none

/-- Length of `qnameCapture = ((?:ncname\:)?ncname)` at the head of the input.
`:` is not an `ncname` character, so the optional-prefix alternative is
deterministic. -/
def qnameLen (cs : List Char) : Option Nat :=
  match ncnameLen cs with
  | none => none
  | some l₁ =>
    match cs.drop l₁ with
    | ':' :: rest =>
      match ncnameLen rest with
      | some l₂ => some (l₁ + 1 + l₂)
      | none => some l₁
    | _ => some l₁

/-- `startTagOpen = ^<qnameCapture`: the captured tag name and the total
matched length. -/
def matchStartTagOpen (cs : List Char) : Option (String × Nat) :=
  match cs with
  | '<' :: rest => (qnameLen rest).map fun l => (⟨rest.take l⟩, l + 1)
  | _ => none

/-- `endTag = ^<\/qnameCapture[^>]*>`: the captured tag name and the total
matched length. -/
def matchEndTag (cs : List Char) : Option (String × Nat) :=
  match cs with
  | '<' :: '/' :: rest =>
    match qnameLen rest with
    | none => none
    | some l =>
      let after := rest.drop l
      let k := (after.takeWhile (· != '>')).length
      match after.drop k with
      | '>' :: _ => some (⟨rest.take l⟩, 2 + l + k + 1)
      | _ => none
  | _ => none

/-- `startTagClose = ^\s*(\/?)>`: whether the unary slash was present, and the
matched length. -/
def matchStartTagClose (cs : List Char) : Option (Bool × Nat) :=
  let w := (cs.takeWhile isJsWs).length
  match cs.drop w with
  | '/' :: '>' :: _ => some (true, w + 2)
  | '>' :: _ => some (false, w + 1)
  | _ => none

/-- One attribute as matched by the `attribute` / `dynamicArgAttribute`
regexes: total length of `match[0]`, the name capture, and the three
alternative value captures (double-quoted, single-quoted, unquoted). -/
structure AttrMatch where
  len : Nat
  name : String
  v3 : Option String
  v4 : Option String
  v5 : Option String
deriving DecidableEq, Repr

/-- A character allowed in an attribute name: `[^\s"'<>\/=]`. -/
def attrNameChar (c : Char) : Bool :=
  !isJsWs c && c != '"' && c != '\'' && c != '<' && c != '>' &&
    c != '/' && c != '='

/-- A character allowed in an unquoted attribute value:
`` [^\s"'=<>`] ``. -/
def unquotedValueChar (c : Char) : Bool :=
  !isJsWs c && c != '"' && c != '\'' && c != '=' && c != '<' &&
    c != '>' && c != '\x60'

/-- The optional value part
``(?:\s*(=)\s*(?:"([^"]*)"+|'([^']*)'+|([^\s"'=<>`]+)))?`` applied after the
name: returns the extra matched length and the three value captures.  When the
whole group fails it matches empty (`(0, none, none, none)`), exactly as the
optional regex group does. -/
def matchAttrValue (cs : List Char) :
    Nat × Option String × Option String × Option String :=
  let w₂ := (cs.takeWhile isJsWs).length
  match cs.drop w₂ with
  | '=' :: afterEq =>
    let w₃ := (afterEq.takeWhile isJsWs).length
    let v := afterEq.drop w₃
    match v with
    | '"' :: vrest =>
      let content := vrest.takeWhile (· != '"')
      let quotes := ((vrest.drop content.length).takeWhile (· == '"')).length
      if quotes == 0 then (0, none, none, none)
      else (w₂ + 1 + w₃ + 1 + content.length + quotes, some ⟨content⟩, none, none)
    | '\'' :: vrest =>
      let content := vrest.takeWhile (· != '\'')
      let quotes := ((vrest.drop content.length).takeWhile (· == '\'')).length
      if quotes == 0 then (0, none, none, none)
      else (w₂ + 1 + w₃ + 1 + content.length + quotes, none, some ⟨content⟩, none)
    | _ =>
      let uv := v.takeWhile unquotedValueChar
      if uv.length == 0 then (0, none, none, none)
      else (w₂ + 1 + w₃ + uv.length, none, none, some ⟨uv⟩)
  | _ => (0, none, none, none)

/-- `attribute = ^\s*([^\s"'<>\/=]+)(?:…value…)?`. -/
def matchAttribute (cs : List Char) : Option AttrMatch :=
  let w := (cs.takeWhile isJsWs).length
  let rest := cs.drop w
  let nameChars := rest.takeWhile attrNameChar
  if nameChars.length == 0 then none
  else
    let (vlen, v3, v4, v5) := matchAttrValue (rest.drop nameChars.length)
    some ⟨w + nameChars.length + vlen, ⟨nameChars⟩, v3, v4, v5⟩

/-- The `(?:v-[\w-]+:|@|:|#)` alternation opening a dynamic-argument
attribute name: its matched length. -/
def dynNameMark (cs : List Char) : Option Nat :=
  match cs with
  | 'v' :: '-' :: rest =>
    let l := (rest.takeWhile (fun c => c.isAlphanum || c == '_' || c == '-')).length
    if l != 0 then
      match rest.drop l with
      | ':' :: _ => some (2 + l + 1)
      | _ => none
    else none
  | '@' :: _ => some 1
  | ':' :: _ => some 1
  | '#' :: _ => some 1
  | _ => none

/-- The lazy `\[[^=]+?\]` bracket part of a dynamic attribute name: length of
`[^=]+?` (the shortest non-empty `=`-free run followed by `]`). -/
def dynArgInner (cs : List Char) : Option Nat :=
  match cs with
  | c₀ :: rest =>
    if c₀ == '=' then none
    else
      let seg := rest.takeWhile (fun c => c != ']' && c != '=')
      match rest.drop seg.length with
      | ']' :: _ => some (1 + seg.length)
      | _ => none
  | [] => none

/-- `dynamicArgAttribute =
^\s*((?:v-[\w-]+:|@|:|#)\[[^=]+?\][^\s"'<>\/=]*)(?:…value…)?`. -/
def matchDynAttribute (cs : List Char) : Option AttrMatch :=
  let w := (cs.takeWhile isJsWs).length
  let rest := cs.drop w
  match dynNameMark rest with
  | none => none
  | some pl =>
    match rest.drop pl with
    | '[' :: afterBracket =>
      match dynArgInner afterBracket with
      | none => none
      | some il =>
        let afterClose := afterBracket.drop (il + 1)
        let trail := afterClose.takeWhile attrNameChar
        let nameLen := pl + 1 + il + 1 + trail.length
        let (vlen, v3, v4, v5) := matchAttrValue (rest.drop nameLen)
        some ⟨w + nameLen + vlen, ⟨rest.take nameLen⟩, v3, v4, v5⟩
    | _ => none

/-- `doctype = /^<!DOCTYPE [^>]+>/i`: matched length. -/
def matchDoctype (cs : List Char) : Option Nat :=
  let open_ := cs.take 9
  if (open_.map Char.toLower) == "<!doctype".toList && open_.length == 9 then
    match cs.drop 9 with
    | ' ' :: rest =>
      let body := rest.takeWhile (· != '>')
      if body.length == 0 then none
      else
        match rest.drop body.length with
        | '>' :: _ => some (9 + 1 + body.length + 1)
        | _ => none
    | _ => none
  else none

/-- `comment.test(html)`: `^<!\--`. -/
def isCommentOpen (cs : List Char) : Bool :=
  "<!--".toList.isPrefixOf cs

/-- `conditionalComment.test(html)`: `^<!\[`. -/
def isCondCommentOpen (cs : List Char) : Bool :=
  "<![".toList.isPrefixOf cs

/-- `html.indexOf(pat)` — index of the first occurrence of a substring. -/
def indexOfSub (cs pat : List Char) : Option Nat :=
  match cs with
  | [] => if pat.isEmpty then some 0 else none
  | _ :: rest =>
    if pat.isPrefixOf cs then some 0
    else (indexOfSub rest pat).map (· + 1)

/-- `rest.indexOf('<', 1)`. -/
def indexOfLtFrom1 (cs : List Char) : Option Nat :=
  ((cs.drop 1).findIdx? (· == '<')).map (· + 1)

/-- The entity table `decodingMap`, with the two newline/tab entities gated by
`shouldDecodeNewlines`, applied as the global replace of
`encodedAttr(WithNewLines)` over an attribute value (fuelled on the input
length; every step consumes at least one character). -/
def decodeAttrGo (withNewlines : Bool) : Nat → List Char → List Char
  | 0, _ => []
  | _, [] => []
  | fuel + 1, c :: rest =>
    if c == '&' then
      if "lt;".toList.isPrefixOf rest then '<' :: decodeAttrGo withNewlines fuel (rest.drop 3)
      else if "gt;".toList.isPrefixOf rest then '>' :: decodeAttrGo withNewlines fuel (rest.drop 3)
      else if "quot;".toList.isPrefixOf rest then '"' :: decodeAttrGo withNewlines fuel (rest.drop 5)
      else if "amp;".toList.isPrefixOf rest then '&' :: decodeAttrGo withNewlines fuel (rest.drop 4)
      else if "#39;".toList.isPrefixOf rest then '\'' :: decodeAttrGo withNewlines fuel (rest.drop 4)
      else if withNewlines && "#10;".toList.isPrefixOf rest then
        '\n' :: decodeAttrGo withNewlines fuel (rest.drop 4)
      else if withNewlines && "#9;".toList.isPrefixOf rest then
        '\t' :: decodeAttrGo withNewlines fuel (rest.drop 3)
      else c :: decodeAttrGo withNewlines fuel rest
    else c :: decodeAttrGo withNewlines fuel rest

/-- `decodeAttr(value, shouldDecodeNewlines)`. -/
def decodeAttr (withNewlines : Bool) (cs : List Char) : List Char :=
  decodeAttrGo withNewlines cs.length cs

/-- `String.prototype.toLowerCase()` over the character list (kernel-reducible
replacement for `String.toLower`). -/
def strToLower (s : String) : String :=
  ⟨s.toList.map Char.toLower⟩

/-- `isPlainTextElement = makeMap('script,style,textarea', true)` (the second
argument makes the lookup lowercase its input). -/
def isPlainTextElement (tag : String) : Bool :=
  let t := strToLower tag
  t == "script" || t == "style" || t == "textarea"

/-- `isIgnoreNewlineTag = makeMap('pre,textarea', true)`. -/
def isIgnoreNewlineTag (tag : String) : Bool :=
  let t := strToLower tag
  t == "pre" || t == "textarea"

/-- `shouldIgnoreFirstNewline(tag, html)`. -/
def shouldIgnoreFirstNewline (tag : String) (html : List Char) : Bool :=
  isIgnoreNewlineTag tag && html.head? == some '\n'

/-- An attribute as handed to `options.start`. -/
structure HtmlAttr where
  name : String
  value : String
deriving DecidableEq, Repr

/-- A scanner event (`options.start` / `options.end` / `options.chars` /
`options.comment`). -/
inductive HtmlEvent where
  | start (tag : String) (attrs : List HtmlAttr) (unary : Bool)
  | endTagEv (tag : String)
  | chars (text : String)
  | comment (text : String)
deriving DecidableEq, Repr

/-- The scanner options consumed by `parseHTML`.  `isNonPhrasingTag` is
imported from `web/compiler/util`; it is a platform predicate and enters the
model as an option. -/
structure HtmlOptions where
  expectHTML : Bool
  isUnaryTag : String → Bool
  canBeLeftOpenTag : String → Bool
  isNonPhrasingTag : String → Bool
  shouldKeepComment : Bool
  shouldDecodeNewlines : Bool
  shouldDecodeNewlinesForHref : Bool

/-- `parseHTML`'s mutable state: the remaining input, the running character
index, the open-element stack (top first; entries are `{tag, lowerCasedTag}`),
`lastTag`, and the collected events and warnings. -/
structure HtmlState where
  html : List Char
  index : Nat
  stack : List (String × String)
  lastTag : Option String
  events : List HtmlEvent
  warns : List String

/-- `advance(n)`. -/
def hAdvance (n : Nat) (s : HtmlState) : HtmlState :=
  { s with index := s.index + n, html := s.html.drop n }

/-- `parseEndTag(tagName, start, end)` (`src/src/compiler/parser/html-parser.js`
lines 355-415).  With a tag name: close every element above (and including)
the nearest stack entry with the same lowercased tag, warning for each one
force-closed above it; unmatched `</br>`/`</p>` synthesize browser-compatible
events; other unmatched end tags are dropped.  Without a tag name (`pos = 0`):
force-close the whole stack, warning for every entry. -/
def parseEndTagModel (tagName : Option String) (s : HtmlState) : HtmlState :=
  match tagName with
  | none =>
    { s with
      stack := []
      lastTag := none
      warns := s.warns ++ s.stack.map fun e => "tag <" ++ e.1 ++ "> has no matching end tag."
      events := s.events ++ s.stack.map fun e => .endTagEv e.1 }
  | some t =>
    let lower := strToLower t
    match s.stack.findIdx? (fun e => e.2 == lower) with
    | some k =>
      let remaining := s.stack.drop (k + 1)
      { s with
        stack := remaining
        lastTag := remaining.head?.map (·.1)
        warns := s.warns ++
          (s.stack.take k).map fun e => "tag <" ++ e.1 ++ "> has no matching end tag."
        events := s.events ++ (s.stack.take (k + 1)).map fun e => .endTagEv e.1 }
    | none =>
      if lower == "br" then
        { s with events := s.events ++ [.start t [] true] }
      else if lower == "p" then
        { s with events := s.events ++ [.start t [] false, .endTagEv t] }
      else s

/-- The result of `parseStartTag()`. -/
structure StartTagMatch where
  tagName : String
  attrs : List AttrMatch
  unarySlash : Bool

/-- The attribute-collection loop of `parseStartTag` (fuelled; every accepted
attribute consumes at least one character). -/
def collectAttrs (tagName : String) :
    Nat → HtmlState → List AttrMatch → Option StartTagMatch × HtmlState
  | 0, s, _ => (none, s)
  | fuel + 1, s, acc =>
    match matchStartTagClose s.html with
    | some (slash, clen) => (some ⟨tagName, acc.reverse, slash⟩, hAdvance clen s)
    | none =>
      match (matchDynAttribute s.html).orElse (fun _ => matchAttribute s.html) with
      | some am => collectAttrs tagName fuel (hAdvance am.len s) (am :: acc)
      | none => (none, s)

/-- `parseStartTag()`.  As in the source, input consumed while scanning is
consumed even when no closing `>` is ever found and the function yields no
match. -/
def parseStartTagModel (s : HtmlState) : Option StartTagMatch × HtmlState :=
  match matchStartTagOpen s.html with
  | none => (none, s)
  | some (tag, len) =>
    let s₁ := hAdvance len s
    collectAttrs tag (s₁.html.length + 1) s₁ []

/-- `handleStartTag(match)` (`src/src/compiler/parser/html-parser.js` lines
287-345). -/
def handleStartTagModel (opts : HtmlOptions) (m : StartTagMatch)
    (s : HtmlState) : HtmlState :=
  let s :=
    if opts.expectHTML then
      let s :=
        if s.lastTag == some "p" && opts.isNonPhrasingTag m.tagName then
          parseEndTagModel s.lastTag s
        else s
      if opts.canBeLeftOpenTag m.tagName && s.lastTag == some m.tagName then
        parseEndTagModel (some m.tagName) s
      else s
    else s
  let unary := opts.isUnaryTag m.tagName || m.unarySlash
  let attrs := m.attrs.map fun a =>
    -- const value = args[3] || args[4] || args[5] || ''  (JS ||: '' is falsy)
    let value :=
      match a.v3, a.v4, a.v5 with
      | some v, _, _ => if v == "" then
          (match a.v4, a.v5 with
            | some v', _ => if v' == "" then (a.v5.getD "") else v'
            | none, o => o.getD "")
        else v
      | none, some v, _ => if v == "" then a.v5.getD "" else v
      | none, none, o => o.getD ""
    let sdn :=
      if m.tagName == "a" && a.name == "href" then opts.shouldDecodeNewlinesForHref
      else opts.shouldDecodeNewlines
    HtmlAttr.mk a.name ⟨decodeAttr sdn value.toList⟩
  let s :=
    if !unary then
      { s with stack := (m.tagName, strToLower m.tagName) :: s.stack,
               lastTag := some m.tagName }
    else s
  { s with events := s.events ++ [.start m.tagName attrs unary] }

/-- Length of a match of the case-insensitive `(</stackedTag[^>]*>)` at the
head of the input. -/
def stackedEndLen (lower : List Char) (cs : List Char) : Option Nat :=
  match cs with
  | '<' :: '/' :: rest =>
    let tagPart := rest.take lower.length
    if tagPart.length == lower.length && tagPart.map Char.toLower == lower then
      let after := rest.drop lower.length
      let k := (after.takeWhile (· != '>')).length
      match after.drop k with
      | '>' :: _ => some (2 + lower.length + k + 1)
      | _ => none
    else none
  | _ => none

/-- First match of `reStackedTag`'s closing-tag group: its index and length
(the lazy `([\s\S]*?)` group is everything before it). -/
def findStackedEnd (lower : List Char) : List Char → Option (Nat × Nat)
  | [] => none
  | c :: rest =>
    match stackedEndLen lower (c :: rest) with
    | some l => some (0, l)
    | none => (findStackedEnd lower rest).map fun p => (p.1 + 1, p.2)

/-- The inner `while` of the text chunking: extend `textEnd` past `<`
characters that open neither a tag, a comment nor a conditional comment
(fuelled; `next ≥ 1` on every step). -/
def advanceTextEnd (cs : List Char) : Nat → Nat → Nat
  | 0, te => te
  | fuel + 1, te =>
    let rest := cs.drop te
    if !(matchEndTag rest).isSome && !(matchStartTagOpen rest).isSome &&
        !isCommentOpen rest && !isCondCommentOpen rest then
      match indexOfLtFrom1 rest with
      | none => te
      | some nxt => advanceTextEnd cs fuel (te + nxt)
    else te

/-- The text-consuming tail of a scanner iteration: slice the text chunk off
(`textEnd = none` models `indexOf('<') === -1`), advance past it and emit a
`chars` event when it is non-empty. -/
def textChunk (s : HtmlState) (textEnd : Option Nat) : HtmlState :=
  let text : List Char :=
    match textEnd with
    | some te => s.html.take (advanceTextEnd s.html (s.html.length + 1) te)
    | none => s.html
  if text.isEmpty then s
  else { hAdvance text.length s with events := s.events ++ [.chars ⟨text⟩] }

/-- The `if (html === last)` epilogue: the whole remaining input made no
progress, so it is emitted as one trailing text event, with a mal-formed-tag
diagnostic when no element is open, and scanning stops. -/
def breakOut (s : HtmlState) : HtmlState :=
  let s' := { s with events := s.events ++ [HtmlEvent.chars ⟨s.html⟩] }
  if s'.stack.isEmpty then
    { s' with warns := s'.warns ++
        ["Mal-formatted tag at end of template: \"" ++ (⟨s.html⟩ : String) ++ "\""] }
  else s'

/-- The `while (html)` loop of `parseHTML` (`src/src/compiler/parser/html-parser.js`
lines 88-236), fuelled on the input length (every iteration either consumes at
least one character or stops). -/
def parseHTMLLoop (opts : HtmlOptions) : Nat → HtmlState → HtmlState
  | 0, s => s
  | fuel + 1, s =>
    if s.html.isEmpty then s
    else
      let last := s.html
      if (match s.lastTag with | none => true | some t => !isPlainTextElement t) then
        let textEnd := s.html.findIdx? (· == '<')
        if textEnd == some 0 && isCommentOpen s.html &&
            (indexOfSub s.html "-->".toList).isSome then
          match indexOfSub s.html "-->".toList with
          | some commentEnd =>
            let s :=
              if opts.shouldKeepComment then
                -- html.substring(4, commentEnd) (JS substring swaps its bounds)
                let lo := min 4 commentEnd
                let hi := max 4 commentEnd
                { s with events := s.events ++ [.comment ⟨(s.html.drop lo).take (hi - lo)⟩] }
              else s
            parseHTMLLoop opts fuel (hAdvance (commentEnd + 3) s)
          | none => s
        else if textEnd == some 0 && isCondCommentOpen s.html &&
            (indexOfSub s.html "]>".toList).isSome then
          match indexOfSub s.html "]>".toList with
          | some conditionalEnd => parseHTMLLoop opts fuel (hAdvance (conditionalEnd + 2) s)
          | none => s
        else if textEnd == some 0 && (matchDoctype s.html).isSome then
          match matchDoctype s.html with
          | some l => parseHTMLLoop opts fuel (hAdvance l s)
          | none => s
        else if textEnd == some 0 && (matchEndTag s.html).isSome then
          match matchEndTag s.html with
          | some (tag, l) =>
            parseHTMLLoop opts fuel (parseEndTagModel (some tag) (hAdvance l s))
          | none => s
        else
          let startRes :=
            if textEnd == some 0 then parseStartTagModel s else (none, s)
          match startRes with
          | (some m, s₁) =>
            let s₂ := handleStartTagModel opts m s₁
            let s₃ :=
              if shouldIgnoreFirstNewline m.tagName s₂.html then hAdvance 1 s₂ else s₂
            parseHTMLLoop opts fuel s₃
          | (none, s₁) =>
            -- text handling; `textEnd` may be stale when `parseStartTag`
            -- consumed input without finding the tag's end, as in the source
            let s₂ := textChunk s₁ textEnd
            if s₂.html == last then breakOut s₂
            else parseHTMLLoop opts fuel s₂
      else
        -- parsing the content of a plain-text element (script/style/textarea)
        let stackedTag := strToLower (s.lastTag.getD "")
        match findStackedEnd stackedTag.toList s.html with
        | some (i, l) =>
          let text₀ := s.html.take i
          -- the comment/CDATA unwrap is skipped here: its guard
          -- `!isPlainTextElement(stackedTag)` is false on this branch
          let text := if shouldIgnoreFirstNewline stackedTag text₀ then text₀.drop 1 else text₀
          let s₁ := hAdvance (i + l) { s with events := s.events ++ [.chars ⟨text⟩] }
          let s₂ := parseEndTagModel (some stackedTag) s₁
          if s₂.html == last then breakOut s₂
          else parseHTMLLoop opts fuel s₂
        | none =>
          let s₂ := parseEndTagModel (some stackedTag) s
          if s₂.html == last then breakOut s₂
          else parseHTMLLoop opts fuel s₂

/-- `parseHTML(html, options)`: run the loop on the full input, then the final
`parseEndTag()` that force-closes whatever is still open (warning for each
force-closed tag). -/
def parseHTMLModel (opts : HtmlOptions) (template : String) : HtmlState :=
  let s₀ : HtmlState :=
    { html := template.toList, index := 0, stack := [], lastTag := none,
      events := [], warns := [] }
  parseEndTagModel none (parseHTMLLoop opts (template.toList.length + 1) s₀)

/-- Scanner options as the web platform wires them for this model's concrete
runs: `expectHTML`, no unary/left-open tags beyond the defaults needed here,
comments kept. -/
def demoHtmlOptions : HtmlOptions :=
  { expectHTML := true
    isUnaryTag := fun _ => false
    canBeLeftOpenTag := fun _ => false
    isNonPhrasingTag := fun t => t == "div" || t == "p"
    shouldKeepComment := true
    shouldDecodeNewlines := false
    shouldDecodeNewlinesForHref := false }

/-- C9: the well-formed input `<div id="a">text</div>` emits, in order,
exactly a tag-open event for `div` with attribute list `[{id, "a"}]`, a text
event `"text"`, and a tag-close event for `div`, with no diagnostics; for the
input whose `div` lacks its closing tag, the end-of-input stack unwind
synthesizes the missing close event and reports a mismatched-tag diagnostic
for the force-closed tag. -/
theorem C9_scanner_events :
    (parseHTMLModel demoHtmlOptions "<div id=\"a\">text</div>").events
      = [.start "div" [⟨"id", "a"⟩] false, .chars "text", .endTagEv "div"] ∧
    (parseHTMLModel demoHtmlOptions "<div id=\"a\">text</div>").warns = [] ∧
    (parseHTMLModel demoHtmlOptions "<div id=\"a\">text").events
      = [.start "div" [⟨"id", "a"⟩] false, .chars "text", .endTagEv "div"] ∧
    (parseHTMLModel demoHtmlOptions "<div id=\"a\">text").warns
      = ["tag <div> has no matching end tag."] := by
  refine ⟨?_, ?_, ?_, ?_⟩ <;> decide
